/-
Verification of disk_throughput_win.py (djl_utils).

The core of the program is:
  * alignment helpers `align_down` / `align_up` (lines 214-218);
  * the sizing planner inlined in `main` (lines 249-269), which turns
    (requested bytes, autofit flag, free bytes, sector size, requested
    block bytes) into a (file_size, block_size) pair;
  * `throughput_mb_s` (lines 143-144);
  * the write/read pass loops `run_write_tests` / `run_read_tests`
    (lines 146-205), which are symmetric up to the direction of transfer;
  * the `summarize` helper inside `main` (lines 284-291).

Modelling conventions:
  * Byte counts are natural numbers (non-negative integers), matching the
    spec's VolumeInfo/TestPlan data model.
  * Elapsed times and throughput samples are rationals; Python floats are
    modelled as exact arithmetic.  In particular `free_bytes * 0.8` is
    modelled as the exact value `free_bytes * 4 / 5` truncated to an
    integer, which is what `int(free_bytes * 0.8)` computes whenever the
    IEEE product rounds to the exact value (it does at every input
    considered here).
  * Python exceptions are modelled with `Except`: the explicit
    `SystemExit` for insufficient space becomes `PlanError.insufficientSpace`
    and an uncaught `ZeroDivisionError` becomes `PlanError.zeroDivision`.
  * The raw device is a parameter: a function from (pass index, transfer
    index, requested byte count) to a transfer result, standing for the
    `WriteFile`/`ReadFile` calls.  Wall-clock time is a parameter giving
    each pass's elapsed seconds.  Loops that need not terminate in Python
    (a zero block size, or a min-seconds target never reached) are given
    fuel; exhausted fuel (`none`) models divergence.
-/
import Mathlib

namespace DiskThroughput

/-- `align_down(x, multiple)` from the source (line 214): `(x // multiple) * multiple`. -/
def align_down (x multiple : ℕ) : ℕ := (x / multiple) * multiple

/-- `align_up(x, multiple)` from the source (line 217):
`((x + multiple - 1) // multiple) * multiple`. -/
def align_up (x multiple : ℕ) : ℕ := ((x + multiple - 1) / multiple) * multiple

/-- The validated (file_size, block_size) pair produced by the sizing planner
(the spec's `TestPlan`). -/
structure TestPlan where
  file_size : ℕ
  block_size : ℕ
deriving Repr, DecidableEq

/-- How the sizing planner can fail: the explicit `SystemExit` raised when the
request exceeds free space without autofit (line 253), and an uncaught
`ZeroDivisionError` from `%` or `//` with a zero divisor. -/
inductive PlanError where
  | insufficientSpace
  | zeroDivision
deriving Repr, DecidableEq

/-- `int(free_bytes * 0.8)` aligned down to the sector (line 249), modelled
exactly: `align_down(free_bytes * 4 / 5, sector_size)`. -/
def autofit_max_bytes (free_bytes sector_size : ℕ) : ℕ :=
  align_down (free_bytes * 4 / 5) sector_size

/-- The spec's formula for the autofit ceiling, written exactly as the spec
words it: `align_down(free_bytes * 0.8, sector_size)` over exact (rational)
arithmetic, i.e. `⌊(free_bytes * 0.8) / sector_size⌋ * sector_size`.  Used
only to compare against `autofit_max_bytes`, which is translated from the
source. -/
def spec_autofit_max_bytes (free_bytes sector_size : ℕ) : ℕ :=
  ⌊((free_bytes : ℚ) * (4 / 5)) / (sector_size : ℚ)⌋₊ * sector_size

/-- Line 249: `max_bytes = align_down(int(free_bytes * 0.8), sector_size)`
under autofit, `requested` otherwise. -/
def max_bytes_step (requested : ℕ) (autofit : Bool) (free_bytes sector_size : ℕ) : ℕ :=
  if autofit then autofit_max_bytes free_bytes sector_size else requested

/-- Lines 255-257: `file_size = requested`, collapsed to `max_bytes` when
autofit is on and the request is zero or oversized. -/
def file_size_step (requested : ℕ) (autofit : Bool) (max_bytes : ℕ) : ℕ :=
  if autofit = true ∧ (requested = 0 ∨ requested > max_bytes) then max_bytes else requested

/-- Lines 259-260: `if file_size < sector_size: file_size = sector_size`. -/
def clamp_sector (file_size sector_size : ℕ) : ℕ :=
  if file_size < sector_size then sector_size else file_size

/-- Lines 263-264: `if block_size % sector_size != 0: block_size =
align_up(block_size, sector_size)`. -/
def block_align_step (block_size sector_size : ℕ) : ℕ :=
  if block_size % sector_size ≠ 0 then align_up block_size sector_size else block_size

/-- Lines 265-266: `if block_size > file_size: block_size = file_size`. -/
def block_shrink (block_size file_size : ℕ) : ℕ :=
  if block_size > file_size then file_size else block_size

/-- Lines 267-269: `file_size = align_down(file_size, block_size)`, bumped
back to one block when that yields zero. -/
def realign_file (file_size block_size : ℕ) : ℕ :=
  if align_down file_size block_size = 0 then block_size
  else align_down file_size block_size

/-- The sizing planner, translated statement by statement from `main`
(lines 249-269 of disk_throughput_win.py).  `autofit` is the negation of the
`--no-autofit` flag; `block_bytes` is `args.block_kb * 1024`.  Python raises
`ZeroDivisionError` when `%` or `//` gets a zero divisor; the translation
checks each divisor the source uses, at the point the source first divides
by it (the `sector_size` divisions on lines 249 and 263, and the
`block_size` division on line 267). -/
def plan (requested : ℕ) (autofit : Bool) (free_bytes sector_size block_bytes : ℕ) :
    Except PlanError TestPlan :=
  if autofit = true ∧ sector_size = 0 then Except.error PlanError.zeroDivision
  else
    let max_bytes := max_bytes_step requested autofit free_bytes sector_size
    if requested > free_bytes ∧ autofit = false then Except.error PlanError.insufficientSpace
    else if sector_size = 0 then Except.error PlanError.zeroDivision
    else
      let file_size := clamp_sector (file_size_step requested autofit max_bytes) sector_size
      let block_size := block_shrink (block_align_step block_bytes sector_size) file_size
      if block_size = 0 then Except.error PlanError.zeroDivision
      else Except.ok ⟨realign_file file_size block_size, block_size⟩

/-- `throughput_mb_s(total_bytes, seconds)` from the source (lines 143-144):
`(total_bytes / (1024*1024)) / seconds if seconds > 0 else 0.0`, with float
arithmetic modelled exactly over the rationals. -/
def throughput_mb_s (total_bytes : ℕ) (seconds : ℚ) : ℚ :=
  if 0 < seconds then ((total_bytes : ℚ) / (1024 * 1024)) / seconds else 0

/-- The min/mean/max report built by `summarize` in `main` (the spec's
`RunReport`). -/
structure RunReport where
  vmin : ℚ
  vavg : ℚ
  vmax : ℚ
deriving Repr, DecidableEq

/-- `summarize` from `main` (lines 284-291): `min(values)`, `max(values)` and
`statistics.fmean(values)`.  On an empty list Python's `min` raises
(`EmptySeriesError` in the spec's taxonomy), modelled as `none`. -/
def summarize (values : List ℚ) : Option RunReport :=
  match values with
  | [] => none
  | v :: vs =>
      some ⟨vs.foldl min v, (v :: vs).sum / (v :: vs).length, vs.foldl max v⟩

/-- The outcome of one `WriteFile`/`ReadFile` call: the Boolean result and the
byte count the device reports having moved (`dw_written.value` /
`dw_read.value`). -/
structure TransferResult where
  ok : Bool
  bytes : ℕ
deriving Repr, DecidableEq

/-- The data carried by the `OSError` raised on a failed or short transfer
(lines 166-167 / 195-196): only the byte count the device reported
(`dw_written.value` / `dw_read.value`).  The accompanying Windows error
string from `win_err()` is outside the model, and the requested count
`this_io` is not part of the payload the source builds. -/
structure TransferError where
  actual : ℕ
deriving Repr, DecidableEq

/-- One step of the inner transfer loop shared by `run_write_tests`
(lines 163-168) and `run_read_tests` (lines 192-197):
`this_io = block_size if remaining >= block_size else remaining`. -/
def thisIo (block_size remaining : ℕ) : ℕ :=
  if remaining ≥ block_size then block_size else remaining

/-- The inner transfer loop of one pass, fuelled.  `device n` is the result of
the `n`-th `WriteFile`/`ReadFile` call of this pass given its requested byte
count.  Returns the list of byte counts transferred, or the error of the
transfer that failed or came up short; `none` models divergence (the Python
loop never terminates when `block_size = 0` and `remaining > 0`). -/
def ioPassAux (device : ℕ → ℕ → TransferResult) (block_size : ℕ) :
    (fuel : ℕ) → (remaining : ℕ) → (idx : ℕ) →
    Option (Except TransferError (List ℕ))
  | 0, _, _ => none
  | fuel + 1, remaining, idx =>
      if remaining = 0 then some (Except.ok [])
      else
        let io := thisIo block_size remaining
        let r := device idx io
        if r.ok = false ∨ r.bytes ≠ io then
          some (Except.error ⟨r.bytes⟩)
        else
          (ioPassAux device block_size fuel (remaining - io) (idx + 1)).map
            (fun res => res.map (fun rest => io :: rest))

/-- One complete pass over the file: the `while to_write > 0` / `while
to_read > 0` loop started with `to_write = file_size`.  `file_size + 1` fuel
always suffices when `block_size > 0`, since each iteration moves at least
one byte. -/
def ioPass (device : ℕ → ℕ → TransferResult) (block_size file_size : ℕ) :
    Option (Except TransferError (List ℕ)) :=
  ioPassAux device block_size (file_size + 1) file_size 0

/-- The outer pass loop shared by `run_write_tests` (lines 155-173) and
`run_read_tests` (lines 184-202), fuelled.  `elapsed n` is the wall-clock
duration `time.perf_counter()` measures for pass `n`; `device n` is the device
behaviour during pass `n`.  The loop state `(done, total_elapsed, per_pass)`
are the source's local variables; they are returned with the series so the
termination invariant can be stated.  `none` models divergence (fuel out, or a
non-terminating inner loop). -/
def runPassesAux (elapsed : ℕ → ℚ) (device : ℕ → ℕ → ℕ → TransferResult)
    (file_size block_size passes : ℕ) (min_seconds : ℚ) :
    (fuel : ℕ) → (done : ℕ) → (total_elapsed : ℚ) → (per_pass : List ℚ) →
    Option (Except TransferError (List ℚ × ℕ × ℚ))
  | 0, _, _, _ => none
  | fuel + 1, done, total_elapsed, per_pass =>
      if done < passes ∨ total_elapsed < min_seconds then
        match ioPass (device done) block_size file_size with
        | none => none
        | some (Except.error e) => some (Except.error e)
        | some (Except.ok _) =>
            runPassesAux elapsed device file_size block_size passes min_seconds
              fuel (done + 1) (total_elapsed + elapsed done)
              (per_pass ++ [throughput_mb_s file_size (elapsed done)])
      else
        some (Except.ok (per_pass, done, total_elapsed))

/-- A full run of `run_write_tests` or `run_read_tests` (the two are symmetric
up to transfer direction, which the abstract `device` absorbs): the pass loop
started with `per_pass = []`, `total_elapsed = 0.0`, `done = 0`. -/
def runPassLoop (elapsed : ℕ → ℚ) (device : ℕ → ℕ → ℕ → TransferResult)
    (file_size block_size passes : ℕ) (min_seconds : ℚ) (fuel : ℕ) :
    Option (Except TransferError (List ℚ × ℕ × ℚ)) :=
  runPassesAux elapsed device file_size block_size passes min_seconds fuel 0 0 []

/-! ### Shared lemmas about the alignment helpers and the planner. -/

theorem align_down_le (x m : ℕ) : align_down x m ≤ x :=
  Nat.div_mul_le_self x m

theorem align_down_mod (x m : ℕ) : align_down x m % m = 0 :=
  Nat.mul_mod_left _ m

theorem le_align_down {x m : ℕ} (hm : 0 < m) (hx : m ≤ x) : m ≤ align_down x m := by
  have h1 : 1 ≤ x / m := (Nat.one_le_div_iff hm).mpr hx
  calc m = 1 * m := (one_mul m).symm
    _ ≤ x / m * m := Nat.mul_le_mul_right m h1

theorem align_down_mono {x y : ℕ} (m : ℕ) (h : x ≤ y) :
    align_down x m ≤ align_down y m :=
  Nat.mul_le_mul_right m (Nat.div_le_div_right h)

theorem align_down_self {m : ℕ} (hm : 0 < m) : align_down m m = m := by
  unfold align_down
  rw [Nat.div_self hm, one_mul]

theorem align_up_mod (x m : ℕ) : align_up x m % m = 0 :=
  Nat.mul_mod_left _ m

theorem le_align_up {x m : ℕ} (hx : 0 < x) : m ≤ align_up x m := by
  rcases Nat.eq_zero_or_pos m with hm | hm
  · subst hm
    exact Nat.zero_le _
  · have h1 : 1 ≤ (x + m - 1) / m := (Nat.one_le_div_iff hm).mpr (by omega)
    calc m = 1 * m := (one_mul m).symm
      _ ≤ (x + m - 1) / m * m := Nat.mul_le_mul_right m h1

theorem file_size_step_cases (r : ℕ) (af : Bool) (m : ℕ) :
    file_size_step r af m = r ∨ file_size_step r af m = m := by
  unfold file_size_step
  split
  · exact Or.inr rfl
  · exact Or.inl rfl

theorem le_clamp_sector (fs s : ℕ) : s ≤ clamp_sector fs s := by
  unfold clamp_sector
  split <;> omega

theorem block_shrink_le (bs fs : ℕ) : block_shrink bs fs ≤ fs := by
  unfold block_shrink
  split <;> omega

theorem block_shrink_ne_zero {bs fs : ℕ} (h : block_shrink bs fs ≠ 0) :
    bs ≠ 0 ∧ fs ≠ 0 := by
  unfold block_shrink at h
  constructor
  · rintro rfl
    simp at h
  · rintro rfl
    revert h
    split <;> omega

theorem sector_le_block_shrink {b s fs : ℕ}
    (hfs : s ≤ fs) (hne : block_shrink (block_align_step b s) fs ≠ 0) :
    s ≤ block_shrink (block_align_step b s) fs := by
  have hb : block_align_step b s ≠ 0 := (block_shrink_ne_zero hne).1
  have hbas : s ≤ block_align_step b s := by
    by_cases hmod : b % s = 0
    · have heq : block_align_step b s = b := by simp [block_align_step, hmod]
      rw [heq] at hb ⊢
      exact Nat.le_of_dvd (Nat.pos_of_ne_zero hb) (Nat.dvd_of_mod_eq_zero hmod)
    · have heq : block_align_step b s = align_up b s := by simp [block_align_step, hmod]
      rw [heq]
      have hbpos : 0 < b := by
        rcases Nat.eq_zero_or_pos b with rfl | hpos
        · simp at hmod
        · exact hpos
      exact le_align_up hbpos
  unfold block_shrink
  split <;> omega

theorem block_shrink_mod_sector {b s fs : ℕ} (hfs : fs % s = 0) :
    block_shrink (block_align_step b s) fs % s = 0 := by
  unfold block_shrink
  split
  · exact hfs
  · unfold block_align_step
    split
    · exact align_up_mod b s
    · rename_i hmod
      push_neg at hmod
      exact hmod

theorem realign_file_mod (fs bs : ℕ) : realign_file fs bs % bs = 0 := by
  unfold realign_file
  split
  · exact Nat.mod_self bs
  · exact align_down_mod fs bs

theorem le_realign_file {fs bs : ℕ} (hbs : 0 < bs) (hle : bs ≤ fs) :
    bs ≤ realign_file fs bs := by
  unfold realign_file
  split
  · exact le_refl bs
  · exact le_align_down hbs hle

/-- Every `Except.ok` result of the planner decomposes into the staged
computation, with a nonzero sector size and a nonzero final block size. -/
theorem plan_ok_elim {r : ℕ} {af : Bool} {f s b : ℕ} {p : TestPlan}
    (h : plan r af f s b = Except.ok p) :
    s ≠ 0 ∧
    p.block_size =
      block_shrink (block_align_step b s)
        (clamp_sector (file_size_step r af (max_bytes_step r af f s)) s) ∧
    p.file_size =
      realign_file (clamp_sector (file_size_step r af (max_bytes_step r af f s)) s)
        p.block_size ∧
    p.block_size ≠ 0 := by
  unfold plan at h
  dsimp only at h
  split at h
  · exact absurd h (by simp)
  · rename_i h1
    split at h
    · exact absurd h (by simp)
    · split at h
      · exact absurd h (by simp)
      · rename_i h2 h3
        split at h
        · exact absurd h (by simp)
        · rename_i h4
          have hp : (⟨realign_file
              (clamp_sector (file_size_step r af (max_bytes_step r af f s)) s)
              (block_shrink (block_align_step b s)
                (clamp_sector (file_size_step r af (max_bytes_step r af f s)) s)),
              block_shrink (block_align_step b s)
                (clamp_sector (file_size_step r af (max_bytes_step r af f s)) s)⟩ :
              TestPlan) = p := Except.ok.inj h
          refine ⟨h3, ?_, ?_, ?_⟩
          · rw [← hp]
          · rw [← hp]
          · rw [← hp]
            exact h4

theorem autofit_max_mono {f1 f2 : ℕ} (s : ℕ) (h : f1 ≤ f2) :
    autofit_max_bytes f1 s ≤ autofit_max_bytes f2 s :=
  align_down_mono s (Nat.div_le_div_right (Nat.mul_le_mul_right 4 h))

theorem file_size_step_mono {m1 m2 : ℕ} (r : ℕ) (h : m1 ≤ m2) :
    file_size_step r true m1 ≤ file_size_step r true m2 := by
  by_cases h1 : r = 0
  · simp [file_size_step, h1, h]
  · by_cases h2 : r > m1 <;> by_cases h3 : r > m2 <;>
      simp only [file_size_step, h1, h2, h3, true_and, false_or, or_false,
        if_true, if_false] <;>
      simp_all <;> omega

theorem clamp_sector_mono {a b : ℕ} (s : ℕ) (h : a ≤ b) :
    clamp_sector a s ≤ clamp_sector b s := by
  unfold clamp_sector
  split <;> split <;> omega

theorem realign_file_self {fs : ℕ} (hfs : 0 < fs) : realign_file fs fs = fs := by
  unfold realign_file
  rw [align_down_self hfs, if_neg (by omega)]

/-- The tail of the planner (block shrink then file realignment) is monotone
in the incoming file size. -/
theorem realign_shrink_mono {bs fsA fsB : ℕ} (hbs : 0 < bs) (hA : 0 < fsA)
    (h : fsA ≤ fsB) :
    realign_file fsA (block_shrink bs fsA) ≤ realign_file fsB (block_shrink bs fsB) := by
  by_cases h1 : bs > fsA
  · by_cases h2 : bs > fsB
    · simp only [block_shrink, if_pos h1, if_pos h2]
      rw [realign_file_self hA, realign_file_self (by omega)]
      exact h
    · simp only [block_shrink, if_pos h1, if_neg h2]
      rw [realign_file_self hA]
      have hge : bs ≤ realign_file fsB bs := le_realign_file hbs (by omega)
      omega
  · by_cases h2 : bs > fsB
    · omega
    · simp only [block_shrink, if_neg h1, if_neg h2]
      have aA : bs ≤ align_down fsA bs := le_align_down hbs (by omega)
      have aB : bs ≤ align_down fsB bs := le_align_down hbs (by omega)
      unfold realign_file
      rw [if_neg (by omega), if_neg (by omega)]
      exact align_down_mono bs h

/-! ### Lemmas about the fold of `min`/`max` used by `summarize`. -/

theorem foldl_min_le_init : ∀ (vs : List ℚ) (v : ℚ), vs.foldl min v ≤ v
  | [], v => le_refl v
  | x :: xs, v => le_trans (foldl_min_le_init xs (min v x)) (min_le_left v x)

theorem foldl_min_le_mem : ∀ (vs : List ℚ) (v x : ℚ), x ∈ vs → vs.foldl min v ≤ x
  | [], _, _, hx => absurd hx (List.not_mem_nil _)
  | y :: ys, v, x, hx => by
    rcases List.mem_cons.mp hx with rfl | hx'
    · exact le_trans (foldl_min_le_init ys (min v x)) (min_le_right v x)
    · exact foldl_min_le_mem ys (min v y) x hx'

theorem foldl_min_mem : ∀ (vs : List ℚ) (v : ℚ),
    vs.foldl min v = v ∨ vs.foldl min v ∈ vs
  | [], _ => Or.inl rfl
  | y :: ys, v => by
    rcases foldl_min_mem ys (min v y) with heq | hmem
    · rcases le_total v y with hvy | hyv
      · exact Or.inl (by rw [List.foldl_cons, heq, min_eq_left hvy])
      · refine Or.inr ?_
        rw [List.foldl_cons, heq, min_eq_right hyv]
        exact List.mem_cons_self y ys
    · exact Or.inr (List.mem_cons_of_mem y hmem)

theorem le_foldl_max_init : ∀ (vs : List ℚ) (v : ℚ), v ≤ vs.foldl max v
  | [], v => le_refl v
  | x :: xs, v => le_trans (le_max_left v x) (le_foldl_max_init xs (max v x))

theorem mem_le_foldl_max : ∀ (vs : List ℚ) (v x : ℚ), x ∈ vs → x ≤ vs.foldl max v
  | [], _, _, hx => absurd hx (List.not_mem_nil _)
  | y :: ys, v, x, hx => by
    rcases List.mem_cons.mp hx with rfl | hx'
    · exact le_trans (le_max_right v x) (le_foldl_max_init ys (max v x))
    · exact mem_le_foldl_max ys (max v y) x hx'

theorem foldl_max_mem : ∀ (vs : List ℚ) (v : ℚ),
    vs.foldl max v = v ∨ vs.foldl max v ∈ vs
  | [], _ => Or.inl rfl
  | y :: ys, v => by
    rcases foldl_max_mem ys (max v y) with heq | hmem
    · rcases le_total v y with hvy | hyv
      · refine Or.inr ?_
        rw [List.foldl_cons, heq, max_eq_right hvy]
        exact List.mem_cons_self y ys
      · exact Or.inl (by rw [List.foldl_cons, heq, max_eq_left hyv])
    · exact Or.inr (List.mem_cons_of_mem y hmem)

/-! ### Lemmas about the transfer loop and the pass loop. -/

/-- With a device that always completes transfers fully and a positive block
size, the transfer loop over `q` whole blocks returns `q` transfers of
exactly `block_size` bytes each. -/
theorem ioPassAux_full (dev : ℕ → ℕ → TransferResult) (bs : ℕ) (hbs : 0 < bs)
    (hdev : ∀ i n, (dev i n).ok = true ∧ (dev i n).bytes = n) :
    ∀ (q idx fuel : ℕ), q * bs < fuel →
      ioPassAux dev bs fuel (q * bs) idx = some (Except.ok (List.replicate q bs)) := by
  intro q
  induction q with
  | zero =>
    intro idx fuel hfuel
    obtain ⟨fuel', rfl⟩ : ∃ f', fuel = f' + 1 := ⟨fuel - 1, by omega⟩
    simp [ioPassAux]
  | succ q ih =>
    intro idx fuel hfuel
    obtain ⟨fuel', rfl⟩ : ∃ f', fuel = f' + 1 := ⟨fuel - 1, by omega⟩
    have hrem : (q + 1) * bs ≠ 0 := by positivity
    have hio : thisIo bs ((q + 1) * bs) = bs := by
      unfold thisIo
      rw [if_pos (by nlinarith)]
    rw [ioPassAux, if_neg hrem]
    simp only [hio, (hdev idx bs).1, (hdev idx bs).2]
    rw [if_neg (by simp)]
    have hsub : (q + 1) * bs - bs = q * bs := by
      rw [Nat.succ_mul]
      omega
    rw [hsub, ih (idx + 1) fuel' (by nlinarith)]
    simp [Except.map, List.replicate_succ]

/-- If the first `k` transfers of a pass complete fully and the `k`-th
(0-based) fails or reports the wrong byte count, the transfer loop returns
the error of that transfer, carrying the reported count. -/
theorem ioPassAux_error_at (dev : ℕ → ℕ → TransferResult) (bs : ℕ) (hbs : 0 < bs) :
    ∀ (k idx rem fuel : ℕ), k * bs < rem → rem < fuel →
      (∀ j, j < k → (dev (idx + j) (thisIo bs (rem - j * bs))).ok = true ∧
        (dev (idx + j) (thisIo bs (rem - j * bs))).bytes = thisIo bs (rem - j * bs)) →
      ((dev (idx + k) (thisIo bs (rem - k * bs))).ok = false ∨
        (dev (idx + k) (thisIo bs (rem - k * bs))).bytes ≠ thisIo bs (rem - k * bs)) →
      ioPassAux dev bs fuel rem idx =
        some (Except.error ⟨(dev (idx + k) (thisIo bs (rem - k * bs))).bytes⟩) := by
  intro k
  induction k with
  | zero =>
    intro idx rem fuel hk hfuel _ hfail
    obtain ⟨fuel', rfl⟩ : ∃ f', fuel = f' + 1 := ⟨fuel - 1, by omega⟩
    simp only [Nat.zero_mul, Nat.sub_zero, Nat.add_zero] at hfail ⊢
    rw [ioPassAux, if_neg (by omega)]
    rw [if_pos hfail]
  | succ k ih =>
    intro idx rem fuel hk hfuel hfull hfail
    obtain ⟨fuel', rfl⟩ : ∃ f', fuel = f' + 1 := ⟨fuel - 1, by omega⟩
    have hbsle : bs ≤ rem := le_trans (by nlinarith) (le_of_lt hk)
    have hio : thisIo bs rem = bs := by
      unfold thisIo
      rw [if_pos hbsle]
    have h0 := hfull 0 (Nat.succ_pos k)
    simp only [Nat.zero_mul, Nat.sub_zero, Nat.add_zero] at h0
    rw [hio] at h0
    rw [ioPassAux, if_neg (by omega)]
    simp only [hio, h0.1, h0.2]
    rw [if_neg (by simp)]
    have hrec := ih (idx + 1) (rem - bs) fuel' ?_ ?_ ?_ ?_
    · rw [hrec]
      have he1 : rem - bs - k * bs = rem - (k + 1) * bs := by
        rw [Nat.succ_mul]
        omega
      have he2 : idx + 1 + k = idx + (k + 1) := by omega
      rw [he1, he2]
      rfl
    · rw [Nat.succ_mul] at hk
      omega
    · omega
    · intro j hj
      have hfj := hfull (j + 1) (by omega)
      have hj1 : idx + (j + 1) = idx + 1 + j := by omega
      have hj2 : rem - (j + 1) * bs = rem - bs - j * bs := by
        rw [Nat.succ_mul]
        omega
      rw [hj1, hj2] at hfj
      exact hfj
    · have hk1 : idx + (k + 1) = idx + 1 + k := by omega
      have hk2 : rem - (k + 1) * bs = rem - bs - k * bs := by
        rw [Nat.succ_mul]
        omega
      rw [hk1, hk2] at hfail
      exact hfail

/-- Invariant of the fuelled pass loop: a successful return satisfies the
stop condition, never loses track of completed passes, and appends exactly
one sample per completed pass. -/
theorem runPassesAux_ok_spec (e : ℕ → ℚ) (dev : ℕ → ℕ → ℕ → TransferResult)
    (fs bs p : ℕ) (m : ℚ) :
    ∀ (fuel done : ℕ) (total : ℚ) (acc series : List ℚ) (d : ℕ) (t : ℚ),
      runPassesAux e dev fs bs p m fuel done total acc =
        some (Except.ok (series, d, t)) →
      p ≤ d ∧ m ≤ t ∧ done ≤ d ∧ series.length + done = acc.length + d := by
  intro fuel
  induction fuel with
  | zero =>
    intro done total acc series d t h
    simp [runPassesAux] at h
  | succ fuel ih =>
    intro done total acc series d t h
    rw [runPassesAux] at h
    split at h
    · rename_i hguard
      split at h
      · exact absurd h (by simp)
      · exact absurd h (by simp)
      · have hrec := ih (done + 1) (total + e done)
          (acc ++ [throughput_mb_s fs (e done)]) series d t h
        refine ⟨hrec.1, hrec.2.1, by omega, ?_⟩
        have hlen := hrec.2.2.2
        simp only [List.length_append, List.length_cons, List.length_nil] at hlen
        omega
    · rename_i hguard
      push_neg at hguard
      simp only [Option.some.injEq, Except.ok.injEq, Prod.mk.injEq] at h
      obtain ⟨rfl, rfl, rfl⟩ := h
      exact ⟨by omega, hguard.2, le_refl _, rfl⟩

/-- When the sector size is nonzero and the insufficient-space exit cannot
fire, the planner reduces to its block-size stage. -/
theorem plan_reduce {r : ℕ} {af : Bool} {f s : ℕ} (b : ℕ) (hs : s ≠ 0)
    (hfree : af = true ∨ r ≤ f) :
    plan r af f s b =
      if block_shrink (block_align_step b s)
          (clamp_sector (file_size_step r af (max_bytes_step r af f s)) s) = 0
      then Except.error PlanError.zeroDivision
      else Except.ok ⟨realign_file
          (clamp_sector (file_size_step r af (max_bytes_step r af f s)) s)
          (block_shrink (block_align_step b s)
            (clamp_sector (file_size_step r af (max_bytes_step r af f s)) s)),
        block_shrink (block_align_step b s)
          (clamp_sector (file_size_step r af (max_bytes_step r af f s)) s)⟩ := by
  have h2 : ¬(r > f ∧ af = false) := by
    rintro ⟨hgt, haf⟩
    rcases hfree with hcase | hcase
    · rw [hcase] at haf
      cases haf
    · omega
  unfold plan
  dsimp only
  rw [if_neg (show ¬(af = true ∧ s = 0) by rintro ⟨_, h0⟩; exact hs h0),
    if_neg h2, if_neg hs]

/-! ### The claims. -/

/-- C1, counterexample to the claim as stated: at requested_bytes = 700
(not a sector multiple), autofit off, free_bytes = 10000, sector_size = 512,
requested_block_bytes = 1048576, the planner returns the plan (700, 700),
whose block size is not a multiple of the sector size. -/
theorem C1_counterexample :
    plan 700 false 10000 512 1048576 = Except.ok ⟨700, 700⟩ ∧
    (700 : ℕ) % 512 ≠ 0 := by
  constructor
  · rfl
  · decide

/-- C1 (amended): every plan the sizing planner returns satisfies
`block_size <= file_size`, `file_size % block_size == 0`,
`file_size >= sector_size` and `file_size > 0`; the remaining invariant
`block_size % sector_size == 0` holds under the additional hypothesis that
`requested_bytes` is a multiple of `sector_size` (the shrink on lines
265-266 can otherwise leave a block size equal to an unaligned file size). -/
theorem C1_plan_invariants (r : ℕ) (af : Bool) (f s b : ℕ) (p : TestPlan)
    (h : plan r af f s b = Except.ok p) :
    (p.block_size ≤ p.file_size ∧ p.file_size % p.block_size = 0 ∧
      s ≤ p.file_size ∧ 0 < p.file_size) ∧
    (r % s = 0 → p.block_size % s = 0) := by
  obtain ⟨hs, hbs_eq, hfs_eq, hbs_ne⟩ := plan_ok_elim h
  have hsfs : s ≤ clamp_sector (file_size_step r af (max_bytes_step r af f s)) s :=
    le_clamp_sector _ s
  have hble : p.block_size ≤ clamp_sector (file_size_step r af (max_bytes_step r af f s)) s := by
    rw [hbs_eq]
    exact block_shrink_le _ _
  have hbpos : 0 < p.block_size := Nat.pos_of_ne_zero hbs_ne
  have hfile_ge : p.block_size ≤ p.file_size := by
    rw [hfs_eq]
    exact le_realign_file hbpos hble
  have hmod : p.file_size % p.block_size = 0 := by
    rw [hfs_eq]
    exact realign_file_mod _ _
  have hsb : s ≤ p.block_size := by
    rw [hbs_eq]
    exact sector_le_block_shrink hsfs (hbs_eq ▸ hbs_ne)
  refine ⟨⟨hfile_ge, hmod, le_trans hsb hfile_ge, lt_of_lt_of_le hbpos hfile_ge⟩, ?_⟩
  intro hr
  have hfssmod : file_size_step r af (max_bytes_step r af f s) % s = 0 := by
    rcases file_size_step_cases r af (max_bytes_step r af f s) with he | he
    · rw [he]
      exact hr
    · rw [he]
      unfold max_bytes_step
      split
      · exact align_down_mod _ _
      · exact hr
  have hfsmod : clamp_sector (file_size_step r af (max_bytes_step r af f s)) s % s = 0 := by
    unfold clamp_sector
    split
    · exact Nat.mod_self s
    · exact hfssmod
  rw [hbs_eq]
  exact block_shrink_mod_sector hfsmod

/-- C1, witness for the amended theorem at requested = 1024, autofit off,
free = 10000, sector = 512, block bytes = 2048, where the plan is
(1024, 1024). -/
theorem C1_witness :
    (((⟨1024, 1024⟩ : TestPlan).block_size ≤ (⟨1024, 1024⟩ : TestPlan).file_size ∧
      (⟨1024, 1024⟩ : TestPlan).file_size % (⟨1024, 1024⟩ : TestPlan).block_size = 0 ∧
      512 ≤ (⟨1024, 1024⟩ : TestPlan).file_size ∧
      0 < (⟨1024, 1024⟩ : TestPlan).file_size) ∧
    ((1024 : ℕ) % 512 = 0 → (⟨1024, 1024⟩ : TestPlan).block_size % 512 = 0)) :=
  C1_plan_invariants 1024 false 10000 512 2048 ⟨1024, 1024⟩ (by rfl)

/-- C4: the planner fails with the insufficient-space error exactly when
autofit is disabled and the request exceeds free space; in particular an
autofit run never fails for lack of space. -/
theorem C4_insufficient_space_iff (r : ℕ) (af : Bool) (f s b : ℕ) :
    plan r af f s b = Except.error PlanError.insufficientSpace ↔
      af = false ∧ f < r := by
  constructor
  · intro h
    unfold plan at h
    dsimp only at h
    split at h
    · exact absurd (Except.error.inj h) (by decide)
    · split at h
      · rename_i h2
        exact ⟨h2.2, h2.1⟩
      · split at h
        · exact absurd (Except.error.inj h) (by decide)
        · split at h
          · exact absurd (Except.error.inj h) (by decide)
          · exact absurd h (by simp)
  · rintro ⟨haf, hlt⟩
    subst haf
    unfold plan
    dsimp only
    rw [if_neg (by simp), if_pos ⟨hlt, rfl⟩]

/-- C4, witness: Scenario B, autofit off, free = 1000, requested = 5000
fails with the insufficient-space error. -/
theorem C4_witness :
    plan 5000 false 1000 512 1048576 = Except.error PlanError.insufficientSpace :=
  (C4_insufficient_space_iff 5000 false 1000 512 1048576).mpr ⟨rfl, by omega⟩

/-- C9: with a requested block size of zero (block-kb 0), on any input that
reaches the block-size arithmetic (a positive sector size, and no
insufficient-space exit), the zero survives the sector-multiple check and
the shrink, and the planner dies in `align_down(file_size, 0)` with a
division by zero instead of producing a plan or a defined error. -/
theorem C9_zero_block_crashes (r : ℕ) (af : Bool) (f s : ℕ)
    (hs : s ≠ 0) (hreach : af = true ∨ r ≤ f) :
    plan r af f s 0 = Except.error PlanError.zeroDivision := by
  have h1 : block_align_step 0 s = 0 := by
    simp [block_align_step]
  have h2 : ∀ fs : ℕ, block_shrink 0 fs = 0 := by
    intro fs
    simp [block_shrink]
  unfold plan
  dsimp only
  rw [if_neg (by rintro ⟨_, h0⟩; exact hs h0)]
  rw [if_neg ?_]
  · rw [if_neg hs, h1, h2, if_pos rfl]
  · rintro ⟨hgt, haf⟩
    rcases hreach with hcase | hcase
    · rw [hcase] at haf
      cases haf
    · omega

/-- C9, witness: a zero requested block size at sector 512 with autofit on
crashes with the division-by-zero error. -/
theorem C9_witness :
    plan 0 true 1000 512 0 = Except.error PlanError.zeroDivision :=
  C9_zero_block_crashes 0 true 1000 512 (by decide) (Or.inl rfl)

/-- C6: a completed pass's sample is `(file_size / (1024*1024)) /
elapsed_seconds` when the elapsed time is positive, `0` when it is not
(no division-by-zero crash), and is in every case non-negative. -/
theorem C6_throughput_sample (b : ℕ) (s : ℚ) :
    (0 < s → throughput_mb_s b s = ((b : ℚ) / (1024 * 1024)) / s) ∧
    (s ≤ 0 → throughput_mb_s b s = 0) ∧
    0 ≤ throughput_mb_s b s := by
  refine ⟨fun hs => ?_, fun hs => ?_, ?_⟩
  · rw [throughput_mb_s, if_pos hs]
  · rw [throughput_mb_s, if_neg (not_lt.mpr hs)]
  · unfold throughput_mb_s
    split
    · rename_i hs
      have h1 : (0 : ℚ) ≤ (b : ℚ) / (1024 * 1024) :=
        div_nonneg (Nat.cast_nonneg b) (by norm_num)
      exact div_nonneg h1 (le_of_lt hs)
    · exact le_refl 0

/-- C6, witness: Scenario C, `file_size = 4096`, `elapsed_seconds = 0` gives
the sample `0.0`, a non-negative number. -/
theorem C6_witness :
    throughput_mb_s 4096 0 = 0 ∧ 0 ≤ throughput_mb_s 4096 0 :=
  ⟨(C6_throughput_sample 4096 0).2.1 (by norm_num),
   (C6_throughput_sample 4096 0).2.2⟩

/-- C7: on an empty series `summarize` fails (Python's `min` raises) rather
than returning a report; on any non-empty series the report's min and max
are the extrema of the samples and its mean is the unweighted arithmetic
mean (sum over count). -/
theorem C7_summarize_extrema (values : List ℚ) :
    (values = [] → summarize values = none) ∧
    (∀ rep : RunReport, summarize values = some rep →
      (rep.vmin ∈ values ∧ ∀ x ∈ values, rep.vmin ≤ x) ∧
      (rep.vmax ∈ values ∧ ∀ x ∈ values, x ≤ rep.vmax) ∧
      rep.vavg = values.sum / values.length) := by
  constructor
  · rintro rfl
    rfl
  · intro rep hrep
    match values, hrep with
    | v :: vs, hrep =>
      have hr : rep = ⟨vs.foldl min v, (v :: vs).sum / (v :: vs).length,
          vs.foldl max v⟩ := (Option.some.inj hrep).symm
      subst hr
      refine ⟨⟨?_, ?_⟩, ⟨?_, ?_⟩, rfl⟩
      · rcases foldl_min_mem vs v with heq | hmem
        · rw [heq]
          exact List.mem_cons_self v vs
        · exact List.mem_cons_of_mem v hmem
      · intro x hx
        rcases List.mem_cons.mp hx with rfl | hx'
        · exact foldl_min_le_init vs x
        · exact foldl_min_le_mem vs v x hx'
      · rcases foldl_max_mem vs v with heq | hmem
        · rw [heq]
          exact List.mem_cons_self v vs
        · exact List.mem_cons_of_mem v hmem
      · intro x hx
        rcases List.mem_cons.mp hx with rfl | hx'
        · exact le_foldl_max_init vs x
        · exact mem_le_foldl_max vs v x hx'

/-- C7, witness: on the series [3, 1, 2] the report is min 1, mean 2,
max 3. -/
theorem C7_witness :
    (((1 : ℚ) ∈ [(3 : ℚ), 1, 2] ∧ ∀ x ∈ [(3 : ℚ), 1, 2], (1 : ℚ) ≤ x) ∧
      ((3 : ℚ) ∈ [(3 : ℚ), 1, 2] ∧ ∀ x ∈ [(3 : ℚ), 1, 2], x ≤ (3 : ℚ)) ∧
      (2 : ℚ) = ([(3 : ℚ), 1, 2]).sum / ([(3 : ℚ), 1, 2]).length) :=
  (C7_summarize_extrema [3, 1, 2]).2 ⟨1, 2, 3⟩ (by norm_num [summarize])

/-- C3: with autofit on, the ceiling the planner computes agrees with the
spec's `align_down(free_bytes * 0.8, sector_size)` (exact arithmetic); the
planner sizes the file to the requested bytes unless the request is zero or
exceeds that ceiling, in which case it sizes to the ceiling (stated as: the
autofit plan coincides with a no-autofit plan whose request is the chosen
file size); and Scenario A (sector 512, free 1000000, requested 0, block
1 MiB) yields the plan (799744, 799744). -/
theorem C3_autofit_sizing :
    (∀ f s : ℕ, autofit_max_bytes f s = spec_autofit_max_bytes f s) ∧
    (∀ r f s b : ℕ, r ≠ 0 → r ≤ autofit_max_bytes f s →
      plan r true f s b = plan r false r s b) ∧
    (∀ r f s b : ℕ, r = 0 ∨ autofit_max_bytes f s < r →
      plan r true f s b = plan (autofit_max_bytes f s) false (autofit_max_bytes f s) s b) ∧
    plan 0 true 1000000 512 1048576 = Except.ok ⟨799744, 799744⟩ := by
  refine ⟨?_, ?_, ?_, by rfl⟩
  · intro f s
    unfold autofit_max_bytes spec_autofit_max_bytes align_down
    congr 1
    have hcast : (f : ℚ) * (4 / 5) = ((f * 4 : ℕ) : ℚ) / ((5 : ℕ) : ℚ) := by
      push_cast
      ring
    rw [hcast, Nat.floor_div_nat, Nat.floor_div_nat, Nat.floor_natCast]
  · intro r f s b hr hle
    by_cases hs : s = 0
    · subst hs
      unfold plan
      dsimp only
      rw [if_pos (show true = true ∧ 0 = 0 from ⟨rfl, rfl⟩),
        if_neg (show ¬(false = true ∧ 0 = 0) by simp),
        if_neg (show ¬(r > r ∧ false = false) by simp),
        if_pos (show (0 : ℕ) = 0 from rfl)]
    · have hL : file_size_step r true (max_bytes_step r true f s) = r := by
        unfold max_bytes_step file_size_step
        rw [if_pos rfl, if_neg ?_]
        rintro ⟨_, hor⟩
        rcases hor with h0 | hgt
        · exact hr h0
        · omega
      have hR : file_size_step r false (max_bytes_step r false r s) = r := by
        unfold max_bytes_step file_size_step
        rw [if_neg (by simp)]
      rw [plan_reduce b hs (Or.inl rfl), plan_reduce b hs (Or.inr (le_refl r)), hL, hR]
  · intro r f s b hor
    by_cases hs : s = 0
    · subst hs
      unfold plan
      dsimp only
      rw [if_pos (show true = true ∧ 0 = 0 from ⟨rfl, rfl⟩),
        if_neg (show ¬(false = true ∧ 0 = 0) by simp),
        if_neg (show ¬(autofit_max_bytes f 0 > autofit_max_bytes f 0 ∧ false = false) by simp),
        if_pos (show (0 : ℕ) = 0 from rfl)]
    · have hL : file_size_step r true (max_bytes_step r true f s) =
          autofit_max_bytes f s := by
        unfold max_bytes_step file_size_step
        rw [if_pos rfl, if_pos ⟨rfl, hor⟩]
      have hR : file_size_step (autofit_max_bytes f s) false
          (max_bytes_step (autofit_max_bytes f s) false (autofit_max_bytes f s) s) =
          autofit_max_bytes f s := by
        unfold max_bytes_step file_size_step
        rw [if_neg (by simp)]
      rw [plan_reduce b hs (Or.inl rfl),
        plan_reduce b hs (Or.inr (le_refl (autofit_max_bytes f s))), hL, hR]

/-- C3, witness: the ceiling formula at free 1000000, sector 512 is 799744
on both the source's and the spec's formula, and the zero request collapses
to the ceiling. -/
theorem C3_witness :
    autofit_max_bytes 1000000 512 = spec_autofit_max_bytes 1000000 512 ∧
    plan 0 true 1000000 512 1048576 =
      plan (autofit_max_bytes 1000000 512) false (autofit_max_bytes 1000000 512)
        512 1048576 :=
  ⟨C3_autofit_sizing.1 1000000 512,
   C3_autofit_sizing.2.2.1 0 1000000 512 1048576 (Or.inl rfl)⟩

/-- C8: with autofit on and requested bytes, sector size and requested block
bytes fixed, growing the free space never shrinks the planned file size. -/
theorem C8_autofit_monotone (r f1 f2 s b : ℕ) (p1 p2 : TestPlan)
    (hf : f1 ≤ f2)
    (h1 : plan r true f1 s b = Except.ok p1)
    (h2 : plan r true f2 s b = Except.ok p2) :
    p1.file_size ≤ p2.file_size := by
  obtain ⟨hs, hb1, hF1, hne1⟩ := plan_ok_elim h1
  obtain ⟨_, hb2, hF2, hne2⟩ := plan_ok_elim h2
  have hbas : 0 < block_align_step b s := by
    have := (block_shrink_ne_zero (hb1 ▸ hne1)).1
    omega
  have hm : max_bytes_step r true f1 s ≤ max_bytes_step r true f2 s := by
    unfold max_bytes_step
    rw [if_pos rfl, if_pos rfl]
    exact autofit_max_mono s hf
  have hfss := file_size_step_mono r hm
  have hclamp := clamp_sector_mono s hfss
  have hpos : 0 < clamp_sector (file_size_step r true (max_bytes_step r true f1 s)) s := by
    have := le_clamp_sector (file_size_step r true (max_bytes_step r true f1 s)) s
    omega
  rw [hF1, hb1, hF2, hb2]
  exact realign_shrink_mono hbas hpos hclamp

/-- C8, witness: at requested 0, sector 512, block bytes 1024, growing free
space from 1000 (plan (512, 512)) to 1000000 (plan (799744, 1024)) grows the
file size. -/
theorem C8_witness :
    (⟨512, 512⟩ : TestPlan).file_size ≤ (⟨799744, 1024⟩ : TestPlan).file_size :=
  C8_autofit_monotone 0 1000 1000000 512 1024 ⟨512, 512⟩ ⟨799744, 1024⟩
    (by omega) (by rfl) (by rfl)

/-- C2: whenever the pass loop returns a series, at least `passes` passes
have completed, the cumulative elapsed time is at least `min_seconds`, and
the series holds one sample per completed pass; the loop stops immediately
exactly when both conditions are already met, and starts at least one more
pass whenever either still fails. -/
theorem C2_pass_loop_invariant (e : ℕ → ℚ) (dev : ℕ → ℕ → ℕ → TransferResult)
    (fs bs passes : ℕ) (m : ℚ) :
    (∀ (fuel : ℕ) (series : List ℚ) (d : ℕ) (t : ℚ),
      runPassLoop e dev fs bs passes m fuel = some (Except.ok (series, d, t)) →
      passes ≤ d ∧ m ≤ t ∧ series.length = d) ∧
    (∀ (fuel done : ℕ) (total : ℚ) (acc : List ℚ),
      ¬(done < passes ∨ total < m) →
      runPassesAux e dev fs bs passes m (fuel + 1) done total acc =
        some (Except.ok (acc, done, total))) ∧
    (∀ (fuel done : ℕ) (total : ℚ) (acc series : List ℚ) (d : ℕ) (t : ℚ),
      (done < passes ∨ total < m) →
      runPassesAux e dev fs bs passes m fuel done total acc =
        some (Except.ok (series, d, t)) →
      done + 1 ≤ d) := by
  refine ⟨?_, ?_, ?_⟩
  · intro fuel series d t h
    have hspec := runPassesAux_ok_spec e dev fs bs passes m fuel 0 0 [] series d t h
    refine ⟨hspec.1, hspec.2.1, ?_⟩
    have := hspec.2.2.2
    simp only [List.length_nil] at this
    omega
  · intro fuel done total acc hguard
    rw [runPassesAux, if_neg hguard]
  · intro fuel done total acc series d t hguard h
    match fuel with
    | 0 => simp [runPassesAux] at h
    | fuel + 1 =>
      rw [runPassesAux, if_pos hguard] at h
      split at h
      · exact absurd h (by simp)
      · exact absurd h (by simp)
      · have hspec := runPassesAux_ok_spec e dev fs bs passes m fuel (done + 1)
          (total + e done) (acc ++ [throughput_mb_s fs (e done)]) series d t h
        omega

/-- C2, witness: one pass requested, no minimum duration, a device that
transfers fully and passes that take one second: the run returns one sample,
one completed pass, one second of cumulative time. -/
theorem C2_witness :
    1 ≤ 1 ∧ (0 : ℚ) ≤ 1 ∧ ([throughput_mb_s 1 1]).length = 1 :=
  (C2_pass_loop_invariant (fun _ => 1) (fun _ _ n => ⟨true, n⟩) 1 1 1 0).1
    2 [throughput_mb_s 1 1] 1 1
    (by norm_num [runPassLoop, runPassesAux, ioPass, ioPassAux, thisIo, Except.map])

/-- C5, counterexample to the claim as stated: the abort error does not carry
the requested count.  A device that always reports 100 bytes makes a
block-512 pass and a block-256 pass abort on their first transfer with
requested counts 512 and 256 respectively, yet both runs produce the very
same error value (the reported 100 bytes and nothing else), exactly as the
source's `OSError` message only interpolates `dw_written.value` /
`dw_read.value`. -/
theorem C5_counterexample :
    ioPass (fun _ _ => ⟨true, 100⟩) 512 1024 = some (Except.error ⟨100⟩) ∧
    ioPass (fun _ _ => ⟨true, 100⟩) 256 1024 = some (Except.error ⟨100⟩) ∧
    thisIo 512 1024 ≠ thisIo 256 1024 := by
  refine ⟨by rfl, by rfl, by decide⟩

/-- C5 (amended): if, during a pass, the first `k` transfers complete fully
and the next transfer reports failure or fewer bytes than requested, the
pass aborts with the error carrying the reported byte count (the requested
count is not part of the payload), the transfer is not retried, and the pass
loop propagates the error without appending a throughput sample. -/
theorem C5_partial_transfer_aborts (dev : ℕ → ℕ → TransferResult) (bs fs k : ℕ)
    (hbs : 0 < bs) (hk : k * bs < fs)
    (hfull : ∀ j, j < k → (dev j (thisIo bs (fs - j * bs))).ok = true ∧
      (dev j (thisIo bs (fs - j * bs))).bytes = thisIo bs (fs - j * bs))
    (hfail : (dev k (thisIo bs (fs - k * bs))).ok = false ∨
      (dev k (thisIo bs (fs - k * bs))).bytes < thisIo bs (fs - k * bs)) :
    ioPass dev bs fs =
      some (Except.error ⟨(dev k (thisIo bs (fs - k * bs))).bytes⟩) ∧
    (∀ (e : ℕ → ℚ) (devs : ℕ → ℕ → ℕ → TransferResult) (passes : ℕ) (m : ℚ)
      (fuel done : ℕ) (total : ℚ) (acc : List ℚ),
      devs done = dev → (done < passes ∨ total < m) →
      runPassesAux e devs fs bs passes m (fuel + 1) done total acc =
        some (Except.error ⟨(dev k (thisIo bs (fs - k * bs))).bytes⟩)) := by
  have hfail' : (dev (0 + k) (thisIo bs (fs - k * bs))).ok = false ∨
      (dev (0 + k) (thisIo bs (fs - k * bs))).bytes ≠ thisIo bs (fs - k * bs) := by
    rw [Nat.zero_add]
    rcases hfail with hcase | hcase
    · exact Or.inl hcase
    · exact Or.inr (Nat.ne_of_lt hcase)
  have hmain : ioPass dev bs fs =
      some (Except.error ⟨(dev k (thisIo bs (fs - k * bs))).bytes⟩) := by
    have h := ioPassAux_error_at dev bs hbs k 0 fs (fs + 1) hk (by omega)
      (fun j hj => by simpa using hfull j hj) hfail'
    simpa [ioPass] using h
  refine ⟨hmain, ?_⟩
  intro e devs passes m fuel done total acc hdev hguard
  rw [runPassesAux, if_pos hguard, hdev, hmain]

/-- C5, witness: block 512, file 1024, a device whose second transfer reports
only 100 of the 512 requested bytes: the pass returns the error carrying the
reported count 100. -/
theorem C5_witness :
    ioPass (fun j n => if j = 0 then ⟨true, n⟩ else ⟨true, 100⟩) 512 1024 =
      some (Except.error ⟨100⟩) :=
  (C5_partial_transfer_aborts (fun j n => if j = 0 then ⟨true, n⟩ else ⟨true, 100⟩)
    512 1024 1 (by omega) (by omega) (by decide) (by decide)).1

/-- C10: with a positive block size dividing the file size and a device that
always completes transfers fully, a pass issues exactly `file_size /
block_size` transfers, each of exactly `block_size` bytes (the short-tail
branch never fires), moving `file_size` bytes in total. -/
theorem C10_whole_blocks (dev : ℕ → ℕ → TransferResult) (bs fs : ℕ)
    (hbs : 0 < bs) (hmod : fs % bs = 0)
    (hdev : ∀ i n, (dev i n).ok = true ∧ (dev i n).bytes = n) :
    ∃ sizes : List ℕ,
      ioPass dev bs fs = some (Except.ok sizes) ∧
      sizes.length = fs / bs ∧ (∀ x ∈ sizes, x = bs) ∧ sizes.sum = fs := by
  have hq : fs / bs * bs = fs := Nat.div_mul_cancel (Nat.dvd_of_mod_eq_zero hmod)
  refine ⟨List.replicate (fs / bs) bs, ?_, ?_, ?_, ?_⟩
  · have h := ioPassAux_full dev bs hbs hdev (fs / bs) 0 (fs + 1) (by omega)
    rw [hq] at h
    exact h
  · exact List.length_replicate _ _
  · intro x hx
    exact List.eq_of_mem_replicate hx
  · rw [List.sum_replicate, smul_eq_mul, hq]

/-- C10, witness: block 512, file 1024, fully-completing device: two
transfers of 512 bytes each, 1024 bytes in total. -/
theorem C10_witness :
    ∃ sizes : List ℕ,
      ioPass (fun _ n => ⟨true, n⟩) 512 1024 = some (Except.ok sizes) ∧
      sizes.length = 1024 / 512 ∧ (∀ x ∈ sizes, x = 512) ∧ sizes.sum = 1024 :=
  C10_whole_blocks (fun _ n => ⟨true, n⟩) 512 1024 (by omega) (by decide)
    (fun _ _ => ⟨rfl, rfl⟩)

end DiskThroughput
